import Mathlib

/-!
Verification of the universal-makefile deployment scripts.

Shallow embedding of the Python sources under scripts/:
release_manager.py, docker_manager.py, consul_kv.py, consul_web.py,
env_manager.py, fetch_secrets.py, remote_hook_executor.py.

Python strings are sequences of characters, so they are modelled as
Lean String / List Char (slicing such as s[7:] is character based,
exactly as in Python).  Python truthiness of optional strings
(None and the empty string are falsy) is modelled by pyTruthy.
-/

/-- Truthiness of an optional Python string: None and "" are falsy. -/
def pyTruthy : Option String → Bool
  | none => false
  | some s => s ≠ ""

/-! ### release_manager.py - ReleaseManager.validate_digest

The source checks digest.startswith('sha256:'), that the remaining part
has length 64, and that Python's int(hash_part, 16) succeeds.  The call
int(s, 16) accepts more than bare hex digits: surrounding whitespace, an
optional sign, an optional 0x/0X base marker and single underscores used
as digit separators.  pyIntHexOk models that acceptance test for ASCII
inputs (Python additionally accepts some non-ASCII digit and space
characters, which no claim here depends on). -/

/-- Characters stripped by Python int() parsing (ASCII whitespace). -/
def isPySpace (c : Char) : Bool :=
  c = ' ' || c = '\t' || c = '\n' || c = '\r' || c = '\x0b' || c = '\x0c'

/-- Hexadecimal digit as accepted by Python int(s, 16): both cases. -/
def isPyHexDigit (c : Char) : Bool :=
  ('0' ≤ c && c ≤ '9') || ('a' ≤ c && c ≤ 'f') || ('A' ≤ c && c ≤ 'F')

/-- Tail of a hex-digit run: single underscores may separate digits. -/
def hexTail : List Char → Bool
  | [] => true
  | c :: cs =>
    if c = '_' then
      match cs with
      | [] => false
      | d :: ds => isPyHexDigit d && hexTail ds
    else isPyHexDigit c && hexTail cs

/-- Nonempty run of hex digits with optional single underscore separators. -/
def hexRun : List Char → Bool
  | [] => false
  | c :: cs => isPyHexDigit c && hexTail cs

/-- Digits after an explicit 0x/0X marker: one leading underscore allowed. -/
def hexAfterMarker (l : List Char) : Bool :=
  match l with
  | c :: cs => if c = '_' then hexRun cs else hexRun l
  | [] => hexRun []

/-- Strip Python int() whitespace from both ends. -/
def stripPySpaces (l : List Char) : List Char :=
  ((l.dropWhile isPySpace).reverse.dropWhile isPySpace).reverse

/-- Drop one optional leading sign. -/
def dropPySign (l : List Char) : List Char :=
  match l with
  | c :: cs => if c = '+' || c = '-' then cs else l
  | [] => []

/-- Body of a base-16 integer literal: optional 0x/0X marker then digits. -/
def hexBody (l : List Char) : Bool :=
  match l with
  | a :: b :: cs => if a = '0' && (b = 'x' || b = 'X') then hexAfterMarker cs else hexRun l
  | _ => hexRun l

/-- Whether Python's int(s, 16) succeeds on the ASCII string s. -/
def pyIntHexOk (l : List Char) : Bool :=
  hexBody (dropPySign (stripPySpaces l))

/-- Model of ReleaseManager.validate_digest: startswith('sha256:'),
length of the remainder is 64, and int(remainder, 16) succeeds
(ValueError and any other exception yield False). -/
def validate_digest (digest : List Char) : Bool :=
  if digest.take 7 = "sha256:".data then
    let hashPart := digest.drop 7
    if hashPart.length = 64 then pyIntHexOk hashPart else false
  else false

/-- Character class [0-9a-f] of the spec's digest regex. -/
def isLowerHex (c : Char) : Bool :=
  ('0' ≤ c && c ≤ '9') || ('a' ≤ c && c ≤ 'f')

/-- Modelled from the spec's words: the regular expression
^sha256:[0-9a-f]{64}$ (lowercase hex only), for comparison with the
implementation. -/
def matchesDigestRegex (digest : List Char) : Bool :=
  digest.take 7 = "sha256:".data &&
  (digest.drop 7).length = 64 &&
  (digest.drop 7).all isLowerHex

/-! ### docker_manager.py - DockerImageManager._clean_branch_name -/

/-- Characters kept by re.sub(r'[^a-zA-Z0-9._-]', '', name). -/
def allowedTagChar (c : Char) : Bool :=
  ('a' ≤ c && c ≤ 'z') || ('A' ≤ c && c ≤ 'Z') || ('0' ≤ c && c ≤ '9') ||
  c = '.' || c = '_' || c = '-'

/-- branch.replace('/', '-'). -/
def slashToDash (l : List Char) : List Char :=
  l.map (fun c => if c = '/' then '-' else c)

/-- re.sub(r'-+', '-', name): collapse each run of dashes to one dash. -/
def collapseDashes : List Char → List Char
  | [] => []
  | a :: rest =>
    let r := collapseDashes rest
    if a = '-' && r.head? = some '-' then r else a :: r

/-- name.strip('-'): remove leading and trailing dashes. -/
def stripDashes (l : List Char) : List Char :=
  ((l.dropWhile (fun c => c = '-')).reverse.dropWhile (fun c => c = '-')).reverse

/-- The list-level pipeline of _clean_branch_name. -/
def cleanList (l : List Char) : List Char :=
  stripDashes (collapseDashes ((slashToDash l).filter allowedTagChar))

/-- Model of DockerImageManager._clean_branch_name, including the final
clean_name or 'unknown' (the empty string is falsy). -/
def clean_branch_name (branch : String) : String :=
  let r := cleanList branch.data
  if r.isEmpty then "unknown" else String.mk r

/-! ### Lemmas about the branch-name cleaning pipeline -/

/-- Adjacent characters that are not both dashes. -/
def noDoubleDash (a b : Char) : Prop := ¬(a = '-' ∧ b = '-')

lemma mem_collapseDashes {c : Char} : ∀ {l : List Char}, c ∈ collapseDashes l → c ∈ l := by
  intro l
  induction l with
  | nil => simp [collapseDashes]
  | cons a rest ih =>
    simp only [collapseDashes]
    split
    · intro h; exact List.mem_cons_of_mem a (ih h)
    · intro h
      rcases List.mem_cons.mp h with h | h
      · subst h; exact List.mem_cons_self c rest
      · exact List.mem_cons_of_mem a (ih h)

lemma chain'_collapseDashes (l : List Char) : List.Chain' noDoubleDash (collapseDashes l) := by
  induction l with
  | nil => simp [collapseDashes]
  | cons a rest ih =>
    simp only [collapseDashes]
    split
    · exact ih
    · rename_i hcond
      refine ih.cons' ?_
      intro y hy hab
      rcases hab with ⟨ha, hb⟩
      exact hcond (by simp [ha, Option.mem_def.mp hy, hb])

lemma collapseDashes_eq_self : ∀ {l : List Char}, List.Chain' noDoubleDash l →
    collapseDashes l = l := by
  intro l h
  induction l with
  | nil => simp [collapseDashes]
  | cons a rest ih =>
    simp only [collapseDashes, ih h.tail]
    rw [if_neg]
    intro hcond
    simp only [Bool.and_eq_true, decide_eq_true_eq] at hcond
    obtain ⟨ha, hh⟩ := hcond
    have := (List.chain'_cons'.mp h).1 '-' (Option.mem_def.mpr hh)
    exact this ⟨ha, rfl⟩

lemma subset_stripDashes {l : List Char} : stripDashes l ⊆ l := by
  unfold stripDashes
  intro c hc
  rw [List.mem_reverse] at hc
  have h1 := (List.dropWhile_sublist _).subset hc
  rw [List.mem_reverse] at h1
  exact (List.dropWhile_sublist _).subset h1

lemma chain'_dropWhile {R : Char → Char → Prop} {p : Char → Bool} :
    ∀ {l : List Char}, List.Chain' R l → List.Chain' R (l.dropWhile p) := by
  intro l h
  induction l with
  | nil => exact h
  | cons a rest ih =>
    rw [List.dropWhile_cons]
    split
    · exact ih h.tail
    · exact h

lemma chain'_stripDashes {l : List Char} (h : List.Chain' noDoubleDash l) :
    List.Chain' noDoubleDash (stripDashes l) := by
  unfold stripDashes
  refine List.chain'_reverse.mpr ?_
  refine chain'_dropWhile ?_
  exact List.chain'_reverse.mpr (chain'_dropWhile h)

lemma head?_dropWhile_ne {p : Char → Bool} :
    ∀ (l : List Char) {c : Char}, (l.dropWhile p).head? = some c → p c = false := by
  intro l
  induction l with
  | nil => intro c h; simp at h
  | cons a rest ih =>
    intro c h
    rw [List.dropWhile_cons] at h
    split at h
    · exact ih h
    · rename_i hpa
      simp only [List.head?_cons, Option.some.injEq] at h
      subst h
      exact Bool.eq_false_iff.mpr hpa

lemma getLast?_dropWhile_of_ne_nil {p : Char → Bool} :
    ∀ (l : List Char), l.dropWhile p ≠ [] → (l.dropWhile p).getLast? = l.getLast? := by
  intro l
  induction l with
  | nil => intro h; exact absurd rfl h
  | cons a rest ih =>
    intro h
    rw [List.dropWhile_cons] at h ⊢
    split at h
    · rename_i hpa
      rw [if_pos hpa, ih h]
      have hr : rest ≠ [] := by
        intro e; apply h; rw [e]; rfl
      cases rest with
      | nil => exact absurd rfl hr
      | cons b rest2 => rw [List.getLast?_cons_cons]
    · rename_i hpa
      rw [if_neg hpa]

lemma stripDashes_last {l : List Char} {c : Char}
    (h : (stripDashes l).getLast? = some c) : c ≠ '-' := by
  unfold stripDashes at h
  rw [List.getLast?_reverse] at h
  have := head?_dropWhile_ne _ h
  simpa using this

lemma stripDashes_head {l : List Char} {c : Char}
    (h : (stripDashes l).head? = some c) : c ≠ '-' := by
  unfold stripDashes at h
  rw [List.head?_reverse] at h
  have hne : (l.dropWhile (fun c => c = '-')).reverse.dropWhile (fun c => c = '-') ≠ [] := by
    intro e; rw [e] at h; simp at h
  rw [getLast?_dropWhile_of_ne_nil _ hne, List.getLast?_reverse] at h
  have := head?_dropWhile_ne _ h
  simpa using this

lemma stripDashes_eq_self {l : List Char}
    (h1 : ∀ c, l.head? = some c → c ≠ '-') (h2 : ∀ c, l.getLast? = some c → c ≠ '-') :
    stripDashes l = l := by
  unfold stripDashes
  have e1 : l.dropWhile (fun c => c = '-') = l := by
    cases l with
    | nil => rfl
    | cons a rest =>
      rw [List.dropWhile_cons, if_neg (by simpa using h1 a rfl)]
  rw [e1]
  have e2 : l.reverse.dropWhile (fun c => c = '-') = l.reverse := by
    cases hrev : l.reverse with
    | nil => rfl
    | cons a rest =>
      have hla : l.getLast? = some a := by rw [← List.head?_reverse, hrev]; rfl
      rw [List.dropWhile_cons, if_neg (by simpa using h2 a hla)]
  rw [e2, List.reverse_reverse]

lemma mem_cleanList {l : List Char} {c : Char} (h : c ∈ cleanList l) :
    allowedTagChar c = true := by
  unfold cleanList at h
  have h1 := subset_stripDashes h
  have h2 := mem_collapseDashes h1
  exact (List.mem_filter.mp h2).2

lemma chain'_cleanList (l : List Char) : List.Chain' noDoubleDash (cleanList l) :=
  chain'_stripDashes (chain'_collapseDashes _)

lemma cleanList_idem (l : List Char) : cleanList (cleanList l) = cleanList l := by
  have hall : ∀ c ∈ cleanList l, allowedTagChar c = true := fun _ hc => mem_cleanList hc
  have e1 : slashToDash (cleanList l) = cleanList l := by
    unfold slashToDash
    have hmap : ∀ c ∈ cleanList l, (if c = '/' then '-' else c) = c := by
      intro c hc
      rw [if_neg]
      intro e; subst e
      exact absurd (hall '/' hc) (by decide)
    rw [List.map_congr_left hmap, List.map_id']
  have e2 : (cleanList l).filter allowedTagChar = cleanList l :=
    List.filter_eq_self.mpr hall
  have e3 : collapseDashes (cleanList l) = cleanList l :=
    collapseDashes_eq_self (chain'_cleanList l)
  have e4 : stripDashes (cleanList l) = cleanList l :=
    stripDashes_eq_self (fun _ hc => stripDashes_head hc) (fun _ hc => stripDashes_last hc)
  show stripDashes (collapseDashes ((slashToDash (cleanList l)).filter allowedTagChar)) =
    cleanList l
  rw [e1, e2, e3, e4]

/-- C9: branch-name sanitization is idempotent, and the four concrete
examples of the spec evaluate as stated: feature/user-auth becomes
feature-user-auth, hotfix/bug#123 becomes hotfix-bug123, --x-- becomes x,
and the empty string becomes unknown. -/
theorem C9_clean_branch_name_idempotent :
    (∀ x : String, clean_branch_name (clean_branch_name x) = clean_branch_name x) ∧
    clean_branch_name "feature/user-auth" = "feature-user-auth" ∧
    clean_branch_name "hotfix/bug#123" = "hotfix-bug123" ∧
    clean_branch_name "--x--" = "x" ∧
    clean_branch_name "" = "unknown" := by
  refine ⟨?_, by decide, by decide, by decide, by decide⟩
  intro x
  have hx : ∀ (y : String), clean_branch_name y =
      if (cleanList y.data).isEmpty then "unknown" else String.mk (cleanList y.data) :=
    fun _ => rfl
  rw [hx x]
  by_cases h : (cleanList x.data).isEmpty
  · rw [if_pos h]; decide
  · rw [if_neg h, hx]
    have hd : (String.mk (cleanList x.data)).data = cleanList x.data := rfl
    rw [hd, cleanList_idem, if_neg h]

/-! ### Lemmas about validate_digest -/

lemma lowerHex_isPyHexDigit {c : Char} (h : isLowerHex c = true) : isPyHexDigit c = true := by
  unfold isLowerHex at h
  unfold isPyHexDigit
  simp only [Bool.or_eq_true] at h ⊢
  tauto

lemma lowerHex_ne {c : Char} (h : isLowerHex c = true) (d : Char)
    (hd : isLowerHex d = false) : c ≠ d := by
  intro e; rw [e] at h; rw [h] at hd; exact Bool.noConfusion hd

lemma lowerHex_not_space {c : Char} (h : isLowerHex c = true) : isPySpace c = false := by
  by_contra hs
  rw [Bool.not_eq_false] at hs
  unfold isPySpace at hs
  simp only [Bool.or_eq_true, decide_eq_true_eq] at hs
  rcases hs with ((((e | e) | e) | e) | e) | e <;> subst e <;> exact absurd h (by decide)

lemma dropWhile_eq_self_of_all {p : Char → Bool} {l : List Char}
    (h : ∀ c ∈ l, p c = false) : l.dropWhile p = l := by
  cases l with
  | nil => rfl
  | cons a rest =>
    rw [List.dropWhile_cons, if_neg (by simp [h a (List.mem_cons_self a rest)])]

lemma stripPySpaces_eq_self {l : List Char} (h : ∀ c ∈ l, isPySpace c = false) :
    stripPySpaces l = l := by
  unfold stripPySpaces
  rw [dropWhile_eq_self_of_all h,
    dropWhile_eq_self_of_all (fun c hc => h c (List.mem_reverse.mp hc)),
    List.reverse_reverse]

lemma hexTail_of_all {l : List Char} (h : ∀ c ∈ l, isLowerHex c = true) :
    hexTail l = true := by
  induction l with
  | nil => rfl
  | cons a rest ih =>
    have ha := h a (List.mem_cons_self a rest)
    unfold hexTail
    rw [if_neg (lowerHex_ne ha '_' (by decide))]
    simp [lowerHex_isPyHexDigit ha, ih (fun c hc => h c (List.mem_cons_of_mem a hc))]

lemma pyIntHexOk_of_lower {l : List Char} (hne : l ≠ [])
    (h : ∀ c ∈ l, isLowerHex c = true) : pyIntHexOk l = true := by
  unfold pyIntHexOk
  rw [stripPySpaces_eq_self (fun c hc => lowerHex_not_space (h c hc))]
  cases l with
  | nil => exact absurd rfl hne
  | cons a rest =>
    have ha := h a (List.mem_cons_self a rest)
    have e1 : dropPySign (a :: rest) = a :: rest := by
      show (if (a = '+' || a = '-') = true then rest else a :: rest) = a :: rest
      rw [if_neg]
      simp only [Bool.or_eq_true, decide_eq_true_eq]
      push_neg
      exact ⟨lowerHex_ne ha '+' (by decide), lowerHex_ne ha '-' (by decide)⟩
    rw [e1]
    cases rest with
    | nil =>
      simp [hexBody, hexRun, hexTail, lowerHex_isPyHexDigit ha]
    | cons b rest2 =>
      have hb := h b (List.mem_cons_of_mem a (List.mem_cons_self b rest2))
      have e2 : hexBody (a :: b :: rest2) = hexRun (a :: b :: rest2) := by
        simp only [hexBody]
        rw [if_neg]
        simp [lowerHex_ne hb 'x' (by decide), lowerHex_ne hb 'X' (by decide)]
      rw [e2]
      simp only [hexRun, Bool.and_eq_true]
      exact ⟨lowerHex_isPyHexDigit ha,
        hexTail_of_all (fun c hc => h c (List.mem_cons_of_mem a hc))⟩

/-- C1 (counterexample): the claim says every string not matching
^sha256:[0-9a-f]{64}$ is rejected, but validate_digest accepts a digest
whose 64 hash characters are uppercase A, which the regex rejects. -/
theorem C1_counterexample :
    validate_digest ("sha256:".data ++ List.replicate 64 'A') = true ∧
    matchesDigestRegex ("sha256:".data ++ List.replicate 64 'A') = false := by
  decide

/-- C1 (amended): validate_digest accepts exactly the strings of the form
sha256: followed by 64 characters accepted by Python int(s, 16): both
hexadecimal letter cases and also forms with surrounding whitespace, one
sign, an 0x/0X marker, or underscore digit separators inside the 64
characters.  In particular every string matching ^sha256:[0-9a-f]{64}$
is accepted, but acceptance is strictly larger than the regex. -/
theorem C1_validate_digest_amended (d : List Char) :
    (validate_digest d = true ↔
      (d.take 7 = "sha256:".data ∧ (d.drop 7).length = 64 ∧
        pyIntHexOk (d.drop 7) = true)) ∧
    (matchesDigestRegex d = true → validate_digest d = true) := by
  have hv : validate_digest d =
      if d.take 7 = "sha256:".data then
        (if (d.drop 7).length = 64 then pyIntHexOk (d.drop 7) else false)
      else false := rfl
  constructor
  · rw [hv]
    by_cases h1 : d.take 7 = "sha256:".data
    · rw [if_pos h1]
      by_cases h2 : (d.drop 7).length = 64
      · rw [if_pos h2]
        constructor
        · intro h; exact ⟨h1, h2, h⟩
        · rintro ⟨-, -, h⟩; exact h
      · rw [if_neg h2]
        constructor
        · intro h; simp at h
        · rintro ⟨-, hlen, -⟩; exact absurd hlen h2
    · rw [if_neg h1]
      constructor
      · intro h; simp at h
      · rintro ⟨ht, -, -⟩; exact absurd ht h1
  · intro hr
    unfold matchesDigestRegex at hr
    simp only [Bool.and_eq_true, decide_eq_true_eq, List.all_eq_true] at hr
    obtain ⟨⟨h1, h2⟩, h3⟩ := hr
    have hv : validate_digest d =
        if d.take 7 = "sha256:".data then
          (if (d.drop 7).length = 64 then pyIntHexOk (d.drop 7) else false)
        else false := rfl
    rw [hv, if_pos h1, if_pos h2]
    apply pyIntHexOk_of_lower
    · intro e; rw [e] at h2; simp at h2
    · exact h3

/-- Witness for C1: the amended theorem applied at a concrete lowercase
digest, discharging the regex hypothesis by evaluation. -/
theorem C1_validate_digest_amended_witness :
    validate_digest ("sha256:".data ++ List.replicate 64 'a') = true :=
  (C1_validate_digest_amended ("sha256:".data ++ List.replicate 64 'a')).2 (by decide)

/-! ### Python dict model

Python dicts with string keys and values are modelled as association
lists in insertion order: assigning to an existing key replaces its
value in place, assigning a new key appends it (dict.__setitem__), and
d1.update(d2) assigns every binding of d2 into d1 in order. -/

abbrev EnvDict := List (String × String)

/-- Lookup d.get(k) / d[k] on the modelled dict: first binding of k. -/
def dictLookup (d : EnvDict) (k : String) : Option String :=
  match d with
  | [] => none
  | p :: rest => if p.1 = k then some p.2 else dictLookup rest k

/-- Assignment d[k] = v with Python dict semantics. -/
def dictInsert (d : EnvDict) (k v : String) : EnvDict :=
  if d.any (fun p => p.1 = k) then
    d.map (fun p => if p.1 = k then (k, v) else p)
  else d ++ [(k, v)]

/-- d1.update(d2): assign every binding of d2 into d1, in order. -/
def dictUpdate (d1 d2 : EnvDict) : EnvDict :=
  d2.foldl (fun acc p => dictInsert acc p.1 p.2) d1

/-- A canonical dict representation: no key occurs twice. -/
def keysNodup (d : EnvDict) : Prop := (d.map Prod.fst).Nodup

instance (d : EnvDict) : Decidable (keysNodup d) :=
  List.nodupDecidable (d.map Prod.fst)

lemma dictLookup_append (d1 d2 : EnvDict) (k : String) :
    dictLookup (d1 ++ d2) k =
      match dictLookup d1 k with
      | some v => some v
      | none => dictLookup d2 k := by
  induction d1 with
  | nil => rfl
  | cons p rest ih =>
    by_cases hp : p.1 = k
    · simp [dictLookup, hp]
    · simp [dictLookup, hp, ih]

lemma dictLookup_eq_none_of_any_false {d : EnvDict} {k : String}
    (h : d.any (fun p => p.1 = k) = false) : dictLookup d k = none := by
  induction d with
  | nil => rfl
  | cons p rest ih =>
    simp only [List.any_cons, Bool.or_eq_false_iff] at h
    have hp : ¬ p.1 = k := by simpa using h.1
    simp [dictLookup, hp, ih h.2]

lemma dictLookup_eq_none_of_not_mem {d : EnvDict} {k : String}
    (h : k ∉ d.map Prod.fst) : dictLookup d k = none := by
  apply dictLookup_eq_none_of_any_false
  rw [Bool.eq_false_iff]
  intro hc
  rcases List.any_eq_true.mp hc with ⟨p, hp, he⟩
  simp only [decide_eq_true_eq] at he
  exact h (he ▸ List.mem_map_of_mem Prod.fst hp)

lemma dictLookup_mapReplace (d : EnvDict) (k v k' : String) :
    dictLookup (d.map (fun p => if p.1 = k then (k, v) else p)) k' =
      if k' = k then (if d.any (fun p => p.1 = k) then some v else none)
      else dictLookup d k' := by
  induction d with
  | nil => simp [dictLookup]
  | cons p rest ih =>
    by_cases hp : p.1 = k
    · by_cases hk : k' = k
      · subst hk
        simp [dictLookup, hp, ih]
      · simp only [List.map_cons, if_pos hp]
        have h1 : ¬ (k, v).1 = k' := fun e => hk (e.symm)
        have h2 : ¬ p.1 = k' := fun e => hk (by rw [← e, hp])
        simp [dictLookup, h1, h2, ih, hk]
    · by_cases hk : k' = k
      · subst hk
        have hd : (decide (p.1 = k') : Bool) = false := by simp [hp]
        simp only [List.map_cons, if_neg hp, dictLookup, ih, List.any_cons, hd,
          Bool.false_or]
      · simp only [List.map_cons, if_neg hp]
        by_cases hpk : p.1 = k'
        · simp [dictLookup, hpk, hk]
        · simp [dictLookup, hpk, ih, hk]

lemma dictLookup_dictInsert (d : EnvDict) (k v k' : String) :
    dictLookup (dictInsert d k v) k' = if k' = k then some v else dictLookup d k' := by
  unfold dictInsert
  by_cases hany : d.any (fun p => p.1 = k)
  · rw [if_pos hany, dictLookup_mapReplace, hany]
    simp
  · rw [if_neg hany, dictLookup_append]
    by_cases hk : k' = k
    · subst hk
      rw [dictLookup_eq_none_of_any_false (Bool.eq_false_iff.mpr hany)]
      simp [dictLookup]
    · cases hd : dictLookup d k' with
      | some w => simp [hk]
      | none =>
        have h1 : ¬ k = k' := fun e => hk e.symm
        simp [dictLookup, h1, hk]

lemma dictLookup_dictUpdate (d1 : EnvDict) :
    ∀ (d2 : EnvDict), keysNodup d2 → ∀ (k : String),
      dictLookup (dictUpdate d1 d2) k =
        match dictLookup d2 k with
        | some v => some v
        | none => dictLookup d1 k := by
  intro d2
  induction d2 generalizing d1 with
  | nil => intro _ k; rfl
  | cons p rest ih =>
    intro hnd k
    have hnd' : keysNodup rest := (List.nodup_cons.mp hnd).2
    have hnotin : p.1 ∉ rest.map Prod.fst := (List.nodup_cons.mp hnd).1
    have step : dictUpdate d1 (p :: rest) = dictUpdate (dictInsert d1 p.1 p.2) rest := rfl
    rw [step, ih _ hnd']
    by_cases hk : k = p.1
    · have hrest : dictLookup rest k = none := by
        apply dictLookup_eq_none_of_not_mem
        rw [hk]; exact hnotin
      have hcons : dictLookup (p :: rest) k = some p.2 := by
        simp [dictLookup, hk.symm]
      rw [hrest, hcons, dictLookup_dictInsert, if_pos hk]
    · have hcons : dictLookup (p :: rest) k = dictLookup rest k := by
        have : ¬ p.1 = k := fun e => hk e.symm
        simp [dictLookup, this]
      rw [hcons]
      cases hr : dictLookup rest k with
      | some v => rfl
      | none => rw [dictLookup_dictInsert, if_neg hk]

/-! ### consul_kv.py - resolve_value -/

/-- Model of resolve_value: priority CLI > .env > OS env > default, with
the winning source reported (cast is not modelled: all values are
strings). -/
def resolve_value (keyName : String) (cliVal : Option String) (dotenv : EnvDict)
    (envKey : String) (osEnviron : EnvDict) (dflt : Option String) :
    Option String × String :=
  match cliVal with
  | some v => (some v, "CLI(--" ++ keyName ++ ")")
  | none =>
    match dictLookup dotenv envKey with
    | some v => (some v, ".env(" ++ envKey ++ ")")
    | none =>
      match dictLookup osEnviron envKey with
      | some v => (some v, "OS_ENV(" ++ envKey ++ ")")
      | none => (dflt, "DEFAULT")

/-- C8: resolve_value applies the precedence CLI > dotenv > OS env >
default and reports the winning source: with the key in both the dotenv
map and the OS environment and no CLI value, the dotenv value wins with
label .env(KEY); with a CLI value, the CLI value wins with label
CLI(--flag); with the key in none of the three, the default is returned
with label DEFAULT. -/
theorem C8_resolve_value_precedence (keyName envKey : String) (dotenv osEnviron : EnvDict)
    (dflt : Option String) :
    (∀ v w, dictLookup dotenv envKey = some v → dictLookup osEnviron envKey = some w →
      resolve_value keyName none dotenv envKey osEnviron dflt =
        (some v, ".env(" ++ envKey ++ ")")) ∧
    (∀ c, resolve_value keyName (some c) dotenv envKey osEnviron dflt =
        (some c, "CLI(--" ++ keyName ++ ")")) ∧
    (dictLookup dotenv envKey = none → dictLookup osEnviron envKey = none →
      resolve_value keyName none dotenv envKey osEnviron dflt = (dflt, "DEFAULT")) := by
  refine ⟨?_, ?_, ?_⟩
  · intro v w hv _
    simp [resolve_value, hv]
  · intro c; rfl
  · intro h1 h2
    simp [resolve_value, h1, h2]

/-- Witness for C8: the three branches at concrete dictionaries. -/
theorem C8_resolve_value_precedence_witness :
    resolve_value "flag" none [("K", "dv")] "K" [("K", "ov")] (some "d") =
      (some "dv", ".env(" ++ "K" ++ ")") ∧
    resolve_value "flag" (some "cv") [("K", "dv")] "K" [("K", "ov")] (some "d") =
      (some "cv", "CLI(--" ++ "flag" ++ ")") ∧
    resolve_value "flag" none [] "K" [] (some "d") = (some "d", "DEFAULT") :=
  ⟨(C8_resolve_value_precedence "flag" "K" [("K", "dv")] [("K", "ov")] (some "d")).1
      "dv" "ov" rfl rfl,
   (C8_resolve_value_precedence "flag" "K" [("K", "dv")] [("K", "ov")] (some "d")).2.1 "cv",
   (C8_resolve_value_precedence "flag" "K" [] [] (some "d")).2.2 rfl rfl⟩

/-! ### Python string comparison

Python compares strings lexicographically by code point (used by
sorted(), max() and list.sort in the scripts).  Modelled over the
character lists. -/

/-- Lexicographic strict comparison of character lists by code point. -/
def charsLt : List Char → List Char → Bool
  | _, [] => false
  | [], _ :: _ => true
  | a :: as, b :: bs => if a < b then true else if b < a then false else charsLt as bs

/-- Python s < t on strings. -/
def pyStrLt (s t : String) : Bool := charsLt s.data t.data

/-- Python s <= t on strings. -/
def pyStrLe (s t : String) : Bool := !(pyStrLt t s)

lemma charsLt_irrefl : ∀ (l : List Char), charsLt l l = false := by
  intro l
  induction l with
  | nil => rfl
  | cons a as ih => simp [charsLt, ih]

lemma charsLt_asymm : ∀ {l m : List Char}, charsLt l m = true → charsLt m l = false := by
  intro l
  induction l with
  | nil =>
    intro m h
    cases m with
    | nil => exact absurd h (by simp [charsLt])
    | cons b bs => rfl
  | cons a as ih =>
    intro m h
    cases m with
    | nil => exact absurd h (by simp [charsLt])
    | cons b bs =>
      simp only [charsLt] at h ⊢
      by_cases hab : a < b
      · rw [if_neg (lt_asymm hab), if_pos hab]
      · by_cases hba : b < a
        · rw [if_neg hab, if_pos hba] at h
          exact absurd h (by simp)
        · rw [if_neg hab, if_neg hba] at h
          rw [if_neg hba, if_neg hab]
          exact ih h

lemma charsLt_negtrans : ∀ (c a b : List Char),
    charsLt c a = true → charsLt c b = true ∨ charsLt b a = true := by
  intro c
  induction c with
  | nil =>
    intro a b h
    cases a with
    | nil => exact absurd h (by simp [charsLt])
    | cons x xs =>
      cases b with
      | nil => right; rfl
      | cons y ys => left; rfl
  | cons z zs ih =>
    intro a b h
    cases a with
    | nil => exact absurd h (by simp [charsLt])
    | cons x xs =>
      cases b with
      | nil => right; rfl
      | cons y ys =>
        simp only [charsLt] at h ⊢
        by_cases hzx : z < x
        · by_cases hzy : z < y
          · left; rw [if_pos hzy]
          · right
            have hyx : y < x := lt_of_le_of_lt (not_lt.mp hzy) hzx
            rw [if_pos hyx]
        · rw [if_neg hzx] at h
          by_cases hxz : x < z
          · rw [if_pos hxz] at h
            exact absurd h (by simp)
          · rw [if_neg hxz] at h
            have hzex : z = x := le_antisymm (not_lt.mp hxz) (not_lt.mp hzx)
            by_cases hzy : z < y
            · left; rw [if_pos hzy]
            · by_cases hyz : y < z
              · right
                have hyx : y < x := hzex ▸ hyz
                rw [if_pos hyx]
              · have hzey : z = y := le_antisymm (not_lt.mp hyz) (not_lt.mp hzy)
                rcases ih xs ys h with hl | hr
                · left
                  rw [if_neg hzy, if_neg hyz]
                  exact hl
                · right
                  have hyex : y = x := hzey ▸ hzex
                  rw [if_neg (show ¬ y < x by rw [hyex]; exact lt_irrefl x),
                    if_neg (show ¬ x < y by rw [hyex]; exact lt_irrefl x)]
                  exact hr

lemma pyStrLe_refl (s : String) : pyStrLe s s = true := by
  unfold pyStrLe pyStrLt
  rw [charsLt_irrefl]
  rfl

lemma pyStrLe_total (s t : String) : pyStrLe s t = true ∨ pyStrLe t s = true := by
  unfold pyStrLe pyStrLt
  by_cases h : charsLt t.data s.data = true
  · right
    rw [charsLt_asymm h]
    rfl
  · left
    rw [Bool.eq_false_iff.mpr h]
    rfl

lemma pyStrLe_trans {a b c : String} (h1 : pyStrLe a b = true) (h2 : pyStrLe b c = true) :
    pyStrLe a c = true := by
  unfold pyStrLe pyStrLt at h1 h2 ⊢
  by_contra h
  have hca : charsLt c.data a.data = true := by
    cases hv : charsLt c.data a.data with
    | true => rfl
    | false => exact absurd (by simp [hv]) h
  rcases charsLt_negtrans c.data a.data b.data hca with h' | h'
  · rw [h'] at h2; exact absurd h2 (by simp)
  · rw [h'] at h1; exact absurd h1 (by simp)

/-! ### env_manager.py - EnvManager.load_all and export_with_sources

The file system inputs of an EnvManager instance: each dotenv layer is
either absent (the file does not exist) or a parsed dict.
_load_consul_live always returns a dict ({} on failure), and
_read_build_info returns the stripped nonempty content of .build-info
or None. -/

structure EnvManagerState where
  environment : String
  commonEnv : Option EnvDict
  envFile : Option EnvDict
  useConsul : Bool
  consulLive : EnvDict
  consulCache : Option EnvDict
  runnerEnv : Option EnvDict
  localEnv : Option EnvDict
  ignoreBuildInfo : Bool
  buildInfoExists : Bool
  buildImage : Option String

/-- The dict read for a possibly missing file: missing reads as {}. -/
def getOpt (layer : Option EnvDict) : EnvDict :=
  match layer with
  | some d => d
  | none => []

/-- result.update(read(file)) guarded by file.exists(). -/
def updOpt (r : EnvDict) (layer : Option EnvDict) : EnvDict :=
  match layer with
  | some d => dictUpdate r d
  | none => r

/-- Step 3 of load_all: if use_consul, overlay the live Consul dict when
it is truthy (nonempty), else fall back to the cache file if present. -/
def applyConsul (st : EnvManagerState) (r : EnvDict) : EnvDict :=
  if st.useConsul then
    if st.consulLive.isEmpty then updOpt r st.consulCache
    else dictUpdate r st.consulLive
  else r

/-- Step 6 of load_all: the .build-info DEPLOY_IMAGE override, skipped
when IGNORE_BUILD_INFO is truthy, the file is missing, or its content is
falsy. -/
def applyBuildInfo (st : EnvManagerState) (r : EnvDict) : EnvDict :=
  if !st.ignoreBuildInfo && st.buildInfoExists then
    match st.buildImage with
    | some img => if img ≠ "" then dictInsert r "DEPLOY_IMAGE" img else r
    | none => r
  else r

/-- Model of EnvManager.load_all: common, per-environment, Consul (when
enabled), runner and local layers merged in order, then the build-info
DEPLOY_IMAGE override. -/
def load_all (st : EnvManagerState) : EnvDict :=
  applyBuildInfo st
    (updOpt
      (updOpt
        (applyConsul st (updOpt (updOpt [] st.commonEnv) st.envFile))
        st.runnerEnv)
      st.localEnv)

/-- First-some choice, the lookup shape of a two-layer overlay. -/
def firstSome (x y : Option String) : Option String :=
  match x with
  | some v => some v
  | none => y

/-- The Consul dict as seen by export_with_sources (and, layer-wise, by
load_all): live when truthy, else the cache file, else {}. -/
def consulEffective (st : EnvManagerState) : EnvDict :=
  if st.useConsul then
    if st.consulLive.isEmpty then getOpt st.consulCache else st.consulLive
  else []

/-- The build-info pseudo-layer value for a key. -/
def buildVal (st : EnvManagerState) (k : String) : Option String :=
  if !st.ignoreBuildInfo && st.buildInfoExists then
    match st.buildImage with
    | some img => if img ≠ "" then (if k = "DEPLOY_IMAGE" then some img else none) else none
    | none => none
  else none

/-- Modelled from the spec's words: the fixed layer precedence, later
layers overwriting earlier ones key-by-key — build-info override, then
local, runner, Consul overlay (if enabled), per-environment file, common
file. -/
def layeredLookup (st : EnvManagerState) (k : String) : Option String :=
  firstSome (buildVal st k)
    (firstSome (dictLookup (getOpt st.localEnv) k)
      (firstSome (dictLookup (getOpt st.runnerEnv) k)
        (firstSome (dictLookup (consulEffective st) k)
          (firstSome (dictLookup (getOpt st.envFile) k)
            (dictLookup (getOpt st.commonEnv) k)))))

lemma firstSome_none (x : Option String) : firstSome x none = x := by
  cases x <;> rfl

lemma dictLookup_updOpt (r : EnvDict) (layer : Option EnvDict)
    (h : keysNodup (getOpt layer)) (k : String) :
    dictLookup (updOpt r layer) k = firstSome (dictLookup (getOpt layer) k) (dictLookup r k) := by
  cases layer with
  | none => simp [updOpt, getOpt, dictLookup, firstSome]
  | some d =>
    show dictLookup (dictUpdate r d) k = firstSome (dictLookup d k) (dictLookup r k)
    rw [dictLookup_dictUpdate r d h k]
    cases dictLookup d k <;> rfl

lemma dictLookup_applyConsul (st : EnvManagerState) (r : EnvDict)
    (hLive : keysNodup st.consulLive) (hCache : keysNodup (getOpt st.consulCache))
    (k : String) :
    dictLookup (applyConsul st r) k =
      firstSome (dictLookup (consulEffective st) k) (dictLookup r k) := by
  unfold applyConsul consulEffective
  by_cases hu : st.useConsul
  · rw [if_pos hu, if_pos hu]
    by_cases he : st.consulLive.isEmpty
    · rw [if_pos he, if_pos he, dictLookup_updOpt r st.consulCache hCache k]
    · rw [if_neg he, if_neg he, dictLookup_dictUpdate r st.consulLive hLive k]
      cases dictLookup st.consulLive k <;> rfl
  · rw [if_neg hu, if_neg hu]
    simp [dictLookup, firstSome]

lemma dictLookup_applyBuildInfo (st : EnvManagerState) (r : EnvDict) (k : String) :
    dictLookup (applyBuildInfo st r) k = firstSome (buildVal st k) (dictLookup r k) := by
  unfold applyBuildInfo buildVal
  by_cases hc : !st.ignoreBuildInfo && st.buildInfoExists
  · rw [if_pos hc, if_pos hc]
    cases st.buildImage with
    | none => simp [firstSome]
    | some img =>
      dsimp only
      by_cases hi : img ≠ ""
      · rw [if_pos hi, if_pos hi, dictLookup_dictInsert]
        by_cases hk : k = "DEPLOY_IMAGE"
        · rw [if_pos hk, if_pos hk]; rfl
        · rw [if_neg hk, if_neg hk]; rfl
      · rw [if_neg hi, if_neg hi]; rfl
  · rw [if_neg hc, if_neg hc]; rfl

/-- The concrete three-file scenario of the claim: .env.common with A=1
and B=1, .env.prod with B=2 and C=2, .env.local with C=3, no Consul, no
runner file, no build-info. -/
def c5Scenario : EnvManagerState :=
  ⟨"prod", some [("A", "1"), ("B", "1")], some [("B", "2"), ("C", "2")],
    false, [], none, none, some [("C", "3")], false, false, none⟩

/-- One row of export_with_sources: the key, the winning value, the
per-layer sources in precedence order, the winning source name, and the
conflict/duplicate flags. -/
structure SourceEntry where
  key : String
  value : Option String
  sources : List (String × String)
  final_source : String
  is_conflict : Bool
  is_dup : Bool

/-- The sources contribution of one layer for one key. -/
def optEntry (n : String) : Option String → List (String × String)
  | some v => [(n, v)]
  | none => []

/-- The build_data dict of export_with_sources: at most the DEPLOY_IMAGE
binding, under the same guard as in load_all. -/
def buildDataOf (st : EnvManagerState) : EnvDict :=
  if !st.ignoreBuildInfo && st.buildInfoExists then
    match st.buildImage with
    | some img => if img ≠ "" then [("DEPLOY_IMAGE", img)] else []
    | none => []
  else []

/-- One result row of export_with_sources for key k: sources collected
in the order common, environment, Consul, runner, local, build; the
final value and source are the last ones assigned; is_conflict holds
when at least two distinct values occur, is_dup when several sources
agree on one value. -/
def mkEntry (st : EnvManagerState) (buildData : EnvDict) (k : String) : SourceEntry :=
  let srcs :=
    optEntry "common" (dictLookup (getOpt st.commonEnv) k) ++
    optEntry st.environment (dictLookup (getOpt st.envFile) k) ++
    optEntry "Consul" (dictLookup (consulEffective st) k) ++
    optEntry "runner" (dictLookup (getOpt st.runnerEnv) k) ++
    optEntry "local" (dictLookup (getOpt st.localEnv) k) ++
    optEntry "build" (dictLookup buildData k)
  let fin := srcs.getLast?
  let distinct := (srcs.map Prod.snd).dedup
  ⟨k, fin.map Prod.snd, srcs, (fin.map Prod.fst).getD "unknown",
    decide (1 < distinct.length), decide (1 < srcs.length) && (distinct.length == 1)⟩

/-- The union of all layer keys, sorted as Python sorted() does. -/
def allKeys (st : EnvManagerState) : List String :=
  ((getOpt st.commonEnv).map Prod.fst ++ (getOpt st.envFile).map Prod.fst ++
    (consulEffective st).map Prod.fst ++ (getOpt st.runnerEnv).map Prod.fst ++
    (getOpt st.localEnv).map Prod.fst ++ (buildDataOf st).map Prod.fst).dedup

/-- Model of EnvManager.export_with_sources (the computed rows, before
formatting). -/
def export_with_sources (st : EnvManagerState) : List SourceEntry :=
  (List.insertionSort (fun a b => pyStrLe a b = true) (allKeys st)).map
    (mkEntry st (buildDataOf st))

/-- C5: load_all merges the layers key-by-key with later layers
overwriting earlier ones in the fixed order common, per-environment,
Consul (if enabled), runner, local, build-info override; on the concrete
scenario (.env.common A=1 B=1, .env.prod B=2 C=2, .env.local C=3) it
yields exactly A=1, B=2, C=3, and export_with_sources flags B and C as
conflicts while A is neither conflicting nor duplicated. -/
theorem C5_load_all_merge :
    (∀ st : EnvManagerState,
      keysNodup (getOpt st.commonEnv) → keysNodup (getOpt st.envFile) →
      keysNodup st.consulLive → keysNodup (getOpt st.consulCache) →
      keysNodup (getOpt st.runnerEnv) → keysNodup (getOpt st.localEnv) →
      ∀ k, dictLookup (load_all st) k = layeredLookup st k) ∧
    load_all c5Scenario = [("A", "1"), ("B", "2"), ("C", "3")] ∧
    (export_with_sources c5Scenario).map
        (fun e => (e.key, e.is_conflict, e.is_dup)) =
      [("A", false, false), ("B", true, false), ("C", true, false)] := by
  refine ⟨?_, by decide, by decide⟩
  intro st h1 h2 h3 h4 h5 h6 k
  unfold load_all layeredLookup
  rw [dictLookup_applyBuildInfo, dictLookup_updOpt _ _ h6, dictLookup_updOpt _ _ h5,
    dictLookup_applyConsul _ _ h3 h4, dictLookup_updOpt _ _ h2, dictLookup_updOpt _ _ h1,
    show dictLookup ([] : EnvDict) k = none from rfl, firstSome_none]

/-- Witness for C5: the layering equation applied at the concrete
scenario and key B, discharging the no-duplicate-key hypotheses by
evaluation. -/
theorem C5_load_all_merge_witness :
    dictLookup (load_all c5Scenario) "B" = layeredLookup c5Scenario "B" :=
  C5_load_all_merge.1 c5Scenario (by decide) (by decide) (by decide) (by decide)
    (by decide) (by decide) "B"

/-! ### release_manager.py - deployment records

A deployment record as stored in RELEASES/<id>.json, restricted to the
fields the queries read.  The records list stands for the JSON files
found in the RELEASES directory, in directory-listing order. -/

structure DeploymentRecord where
  deployment_id : String
  timestamp : String
  service_kind : String
  environment : String
  status : String
deriving DecidableEq

/-- One filter of list_deployments: a falsy filter value (None or "")
keeps every record, otherwise the field must equal it. -/
def passFilter (field : String) (f : Option String) : Bool :=
  match f with
  | none => true
  | some s => if s = "" then true else field == s

/-- The conjunction of the three list_deployments filters. -/
def matchesFilters (r : DeploymentRecord) (sk env st : Option String) : Bool :=
  passFilter r.service_kind sk && passFilter r.environment env && passFilter r.status st

/-- Sort order of list_deployments: timestamp descending (Python
list.sort with key timestamp and reverse=True). -/
def tsDesc (a b : DeploymentRecord) : Prop := pyStrLe b.timestamp a.timestamp = true

instance : DecidableRel tsDesc := fun a b => instDecidableEqBool (pyStrLe b.timestamp a.timestamp) true

instance : IsTotal DeploymentRecord tsDesc where
  total a b := by
    rcases pyStrLe_total a.timestamp b.timestamp with h | h
    · exact Or.inr h
    · exact Or.inl h

instance : IsTrans DeploymentRecord tsDesc where
  trans _ _ _ h1 h2 := pyStrLe_trans h2 h1

/-- Model of ReleaseManager.list_deployments: filter, sort newest first,
apply the limit (a falsy limit - None or 0 - truncates nothing). -/
def list_deployments (records : List DeploymentRecord) (sk env st : Option String)
    (limit : Option Nat) : List DeploymentRecord :=
  let filtered := records.filter (fun r => matchesFilters r sk env st)
  let sorted := List.insertionSort tsDesc filtered
  match limit with
  | some n => if n ≠ 0 then sorted.take n else sorted
  | none => sorted

/-- Python max(l, key=timestamp): the first element of maximal timestamp
(replacement only on strictly greater keys); none on the empty list. -/
def pyMaxByTimestamp (l : List DeploymentRecord) : Option DeploymentRecord :=
  match l with
  | [] => none
  | x :: xs =>
    some (xs.foldl (fun m y => if pyStrLt m.timestamp y.timestamp then y else m) x)

/-- Model of ReleaseManager.get_latest_successful_deployment. -/
def get_latest_successful_deployment (records : List DeploymentRecord)
    (sk env : String) : Option DeploymentRecord :=
  pyMaxByTimestamp (list_deployments records (some sk) (some env) (some "success") none)

/-- Model of ReleaseManager.get_rollback_target: first success, newest
first, skipping the record whose id equals the (truthy) current id. -/
def get_rollback_target (records : List DeploymentRecord) (sk env : String)
    (current : Option String) : Option DeploymentRecord :=
  (list_deployments records (some sk) (some env) (some "success") none).find?
    (fun d => !(pyTruthy current && d.deployment_id == current.getD ""))

lemma pyStrLe_of_lt {a b : String} (h : pyStrLt a b = true) : pyStrLe a b = true := by
  unfold pyStrLe pyStrLt
  unfold pyStrLt at h
  rw [charsLt_asymm h]
  rfl

lemma pyStrLe_of_not_lt {a b : String} (h : pyStrLt a b = false) : pyStrLe b a = true := by
  unfold pyStrLe
  rw [h]
  rfl

lemma foldl_max_spec :
    ∀ (xs : List DeploymentRecord) (x : DeploymentRecord),
      (xs.foldl (fun m y => if pyStrLt m.timestamp y.timestamp then y else m) x) ∈ x :: xs ∧
      pyStrLe x.timestamp
        (xs.foldl (fun m y => if pyStrLt m.timestamp y.timestamp then y else m) x).timestamp
        = true ∧
      ∀ y ∈ xs, pyStrLe y.timestamp
        (xs.foldl (fun m y => if pyStrLt m.timestamp y.timestamp then y else m) x).timestamp
        = true := by
  intro xs
  induction xs with
  | nil =>
    intro x
    exact ⟨List.mem_cons_self x [], pyStrLe_refl _, by intro y hy; cases hy⟩
  | cons y ys ih =>
    intro x
    simp only [List.foldl_cons]
    obtain ⟨hmem, hle, hall⟩ := ih (if pyStrLt x.timestamp y.timestamp then y else x)
    by_cases hxy : pyStrLt x.timestamp y.timestamp = true
    · rw [if_pos hxy] at hmem hle hall
      refine ⟨?_, ?_, ?_⟩
      · rw [if_pos hxy]
        rcases List.mem_cons.mp hmem with h | h
        · rw [h]; exact List.mem_cons_of_mem x (List.mem_cons_self y ys)
        · exact List.mem_cons_of_mem x (List.mem_cons_of_mem y h)
      · rw [if_pos hxy]
        exact pyStrLe_trans (pyStrLe_of_lt hxy) hle
      · intro z hz
        rw [if_pos hxy]
        rcases List.mem_cons.mp hz with h | h
        · exact h ▸ hle
        · exact hall z h
    · have hxy' : pyStrLt x.timestamp y.timestamp = false := Bool.eq_false_iff.mpr hxy
      rw [if_neg hxy] at hmem hle hall
      refine ⟨?_, ?_, ?_⟩
      · rw [if_neg hxy]
        rcases List.mem_cons.mp hmem with h | h
        · rw [h]; exact List.mem_cons_self x (y :: ys)
        · exact List.mem_cons_of_mem x (List.mem_cons_of_mem y h)
      · rw [if_neg hxy]
        exact hle
      · intro z hz
        rw [if_neg hxy]
        rcases List.mem_cons.mp hz with h | h
        · exact h ▸ pyStrLe_trans (pyStrLe_of_not_lt hxy') hle
        · exact hall z h

lemma pyMax_spec (l : List DeploymentRecord) :
    (pyMaxByTimestamp l = none ↔ l = []) ∧
    ∀ m, pyMaxByTimestamp l = some m →
      m ∈ l ∧ ∀ y ∈ l, pyStrLe y.timestamp m.timestamp = true := by
  cases l with
  | nil => exact ⟨by simp [pyMaxByTimestamp], by intro m h; cases h⟩
  | cons x xs =>
    constructor
    · constructor
      · intro h; cases h
      · intro h; cases h
    · intro m hm
      obtain ⟨hmem, hle, hall⟩ := foldl_max_spec xs x
      have he : m = xs.foldl (fun m y => if pyStrLt m.timestamp y.timestamp then y else m) x := by
        cases hm; rfl
      subst he
      refine ⟨hmem, ?_⟩
      intro y hy
      rcases List.mem_cons.mp hy with h | h
      · exact h ▸ hle
      · exact hall y h

lemma find?_first_max {p : DeploymentRecord → Bool} :
    ∀ {l : List DeploymentRecord} {x : DeploymentRecord}, List.Pairwise tsDesc l →
      l.find? p = some x → ∀ y ∈ l, p y = true → tsDesc x y := by
  intro l
  induction l with
  | nil => intro x _ h; cases h
  | cons a tl ih =>
    intro x hp hf y hy hpy
    rw [List.find?_cons] at hf
    rcases List.pairwise_cons.mp hp with ⟨ha, htl⟩
    cases hpa : p a with
    | true =>
      rw [hpa] at hf
      have hxa : x = a := by cases hf; rfl
      subst hxa
      rcases List.mem_cons.mp hy with h | h
      · subst h; exact pyStrLe_refl _
      · exact ha y h
    | false =>
      rw [hpa] at hf
      rcases List.mem_cons.mp hy with h | h
      · rw [h] at hpy; rw [hpy] at hpa; cases hpa
      · exact ih htl hf y h hpy

lemma status_of_matches {r : DeploymentRecord} {sk env : Option String}
    (h : matchesFilters r sk env (some "success") = true) : r.status = "success" := by
  unfold matchesFilters passFilter at h
  simp only [Bool.and_eq_true] at h
  have h2 := h.2
  rw [if_neg (by decide : ¬("success" : String) = "")] at h2
  exact eq_of_beq h2

/-- The two successful deployments of the claim scenario: D1 older, D2
newer, same service kind and environment. -/
def c6D1 : DeploymentRecord :=
  ⟨"20240101100000-be-prod", "2024-01-01T10:00:00", "be", "prod", "success"⟩

def c6D2 : DeploymentRecord :=
  ⟨"20240102100000-be-prod", "2024-01-02T10:00:00", "be", "prod", "success"⟩

def c6Failed : DeploymentRecord :=
  ⟨"20240103100000-be-prod", "2024-01-03T10:00:00", "be", "prod", "failed"⟩

/-- C6: get_latest_successful_deployment returns a stored record that
passes the service-kind/environment/success filters and has the maximum
timestamp among them (absent exactly when none passes); with a truthy
excluded id, get_rollback_target returns such a maximal record among
those whose deployment_id differs from the excluded one (absent exactly
when all matching successes carry the excluded id); on the concrete
scenario, excluding D2 yields D1, no exclusion yields D2, and with only
a failed record both are absent. -/
theorem C6_rollback_selection :
    (∀ (records : List DeploymentRecord) (sk env : String),
      (∀ m, get_latest_successful_deployment records sk env = some m →
        m ∈ records ∧ matchesFilters m (some sk) (some env) (some "success") = true ∧
        m.status = "success" ∧
        ∀ r ∈ records, matchesFilters r (some sk) (some env) (some "success") = true →
          pyStrLe r.timestamp m.timestamp = true) ∧
      (get_latest_successful_deployment records sk env = none ↔
        ∀ r ∈ records, matchesFilters r (some sk) (some env) (some "success") = false)) ∧
    (∀ (records : List DeploymentRecord) (sk env c : String), c ≠ "" →
      (∀ m, get_rollback_target records sk env (some c) = some m →
        m ∈ records ∧ matchesFilters m (some sk) (some env) (some "success") = true ∧
        m.deployment_id ≠ c ∧
        ∀ r ∈ records, matchesFilters r (some sk) (some env) (some "success") = true →
          r.deployment_id ≠ c → pyStrLe r.timestamp m.timestamp = true) ∧
      (get_rollback_target records sk env (some c) = none ↔
        ∀ r ∈ records, matchesFilters r (some sk) (some env) (some "success") = true →
          r.deployment_id = c)) ∧
    get_latest_successful_deployment [c6D1, c6D2] "be" "prod" = some c6D2 ∧
    get_rollback_target [c6D1, c6D2] "be" "prod" (some "20240102100000-be-prod") = some c6D1 ∧
    get_rollback_target [c6D1, c6D2] "be" "prod" none = some c6D2 ∧
    get_latest_successful_deployment [c6Failed] "be" "prod" = none ∧
    get_rollback_target [c6Failed] "be" "prod" (some "20240101100000-be-prod") = none := by
  refine ⟨?_, ?_, by decide, by decide, by decide, by decide, by decide⟩
  · intro records sk env
    constructor
    · intro m hm
      obtain ⟨hmemL, hmax⟩ :=
        (pyMax_spec (list_deployments records (some sk) (some env) (some "success") none)).2 m hm
      have hmemF := (List.mem_insertionSort tsDesc).mp hmemL
      obtain ⟨hmr, hmf⟩ := List.mem_filter.mp hmemF
      refine ⟨hmr, hmf, status_of_matches hmf, ?_⟩
      intro r hr hmatch
      exact hmax r ((List.mem_insertionSort tsDesc).mpr (List.mem_filter.mpr ⟨hr, hmatch⟩))
    · have h1 := (pyMax_spec (list_deployments records (some sk) (some env) (some "success") none)).1
      constructor
      · intro h r hr
        have hnil : list_deployments records (some sk) (some env) (some "success") none = [] :=
          h1.mp h
        have hfn : records.filter
            (fun r => matchesFilters r (some sk) (some env) (some "success")) = [] := by
          have hlen := (List.perm_insertionSort tsDesc (records.filter
            (fun r => matchesFilters r (some sk) (some env) (some "success")))).length_eq
          rw [show List.insertionSort tsDesc (records.filter
              (fun r => matchesFilters r (some sk) (some env) (some "success"))) =
              list_deployments records (some sk) (some env) (some "success") none from rfl,
            hnil] at hlen
          exact List.length_eq_zero.mp hlen.symm
        have := List.filter_eq_nil_iff.mp hfn r hr
        exact Bool.eq_false_iff.mpr this
      · intro h
        apply h1.mpr
        have hfn : records.filter
            (fun r => matchesFilters r (some sk) (some env) (some "success")) = [] :=
          List.filter_eq_nil_iff.mpr (fun r hr => by rw [h r hr]; simp)
        show List.insertionSort tsDesc (records.filter
          (fun r => matchesFilters r (some sk) (some env) (some "success"))) = []
        rw [hfn]
        rfl
  · intro records sk env c hc
    have hpt : pyTruthy (some c) = true := by simp [pyTruthy, hc]
    have hiff : ∀ d : DeploymentRecord,
        ((!(pyTruthy (some c) && d.deployment_id == (some c).getD "")) = true) ↔
          d.deployment_id ≠ c := by
      intro d
      rw [hpt]
      simp
    constructor
    · intro m hm
      have hpm := List.find?_some hm
      have hmemL := List.mem_of_find?_eq_some hm
      have hmemF := (List.mem_insertionSort tsDesc).mp hmemL
      obtain ⟨hmr, hmf⟩ := List.mem_filter.mp hmemF
      refine ⟨hmr, hmf, (hiff m).mp hpm, ?_⟩
      intro r hr hmatch hrid
      have hsorted : List.Pairwise tsDesc (List.insertionSort tsDesc (records.filter
          (fun r => matchesFilters r (some sk) (some env) (some "success")))) :=
        List.sorted_insertionSort tsDesc _
      exact find?_first_max hsorted hm r
        ((List.mem_insertionSort tsDesc).mpr (List.mem_filter.mpr ⟨hr, hmatch⟩))
        ((hiff r).mpr hrid)
    · constructor
      · intro h r hr hmatch
        have hnone := List.find?_eq_none.mp h r
          ((List.mem_insertionSort tsDesc).mpr (List.mem_filter.mpr ⟨hr, hmatch⟩))
        by_contra hne
        exact hnone ((hiff r).mpr hne)
      · intro h
        apply List.find?_eq_none.mpr
        intro x hx hpx
        obtain ⟨hxr, hxf⟩ := List.mem_filter.mp ((List.mem_insertionSort tsDesc).mp hx)
        exact (hiff x).mp hpx (h x hxr hxf)

/-- Witness for C6: the general parts applied at the concrete scenario,
discharging the hypotheses by evaluation. -/
theorem C6_rollback_selection_witness :
    c6D2 ∈ [c6D1, c6D2] ∧
    matchesFilters c6D2 (some "be") (some "prod") (some "success") = true ∧
    c6D2.status = "success" ∧
    (∀ r ∈ [c6D1, c6D2],
      matchesFilters r (some "be") (some "prod") (some "success") = true →
        pyStrLe r.timestamp c6D2.timestamp = true) :=
  (C6_rollback_selection.1 [c6D1, c6D2] "be" "prod").1 c6D2 (by decide)

/-! ### consul_kv.py - ConsulDirectClient

The Consul KV store is modelled as an association list from full key to
the stored value string.  The HTTP layer is collapsed: a missing key
answers 404 (None), and the JSON Value field of a stored key is falsy
exactly when the stored value is the empty string (base64 of "" is ""),
which is what the client's `if value:` tests observe. -/

abbrev KvStore := List (String × String)

/-- key.lstrip('/'). -/
def lstripSlashes (k : String) : String :=
  String.mk (k.data.dropWhile (fun c => c = '/'))

/-- s.strip('/'). -/
def stripSlashesBoth (s : String) : String :=
  String.mk (((s.data.dropWhile (fun c => c = '/')).reverse.dropWhile
    (fun c => c = '/')).reverse)

/-- ConsulDirectClient._build_key. -/
def buildKey (pfx : String) (key : String) : String :=
  if pfx ≠ "" then pfx ++ "/" ++ lstripSlashes key else lstripSlashes key

/-- s.startswith(t), character based as in Python. -/
def startsWithStr (s t : String) : Bool := t.data.isPrefixOf s.data

/-- Containment of one character list at any position of another. -/
def listInfix (needle : List Char) : List Char → Bool
  | [] => needle.isEmpty
  | c :: rest => needle.isPrefixOf (c :: rest) || listInfix needle rest

/-- needle in hay (Python substring containment). -/
def isSubstr (needle hay : String) : Bool := listInfix needle.data hay.data

/-- ConsulDirectClient: strip the configured key prefix from a full key. -/
def stripPfx (pfx : String) (fullKey : String) : String :=
  if pfx ≠ "" then
    if startsWithStr fullKey (pfx ++ "/") then
      String.mk (fullKey.data.drop (pfx ++ "/").length)
    else fullKey
  else fullKey

/-- Model of ConsulDirectClient.get_config: 404 yields None, and a falsy
Value (the key stored with the empty string) also yields None. -/
def get_config (store : KvStore) (pfx : String) (key : String) : Option String :=
  match dictLookup store (buildKey pfx key) with
  | none => none
  | some v => if v = "" then none else some v

/-- One iteration of the get_all_configs result loop: skip falsy values,
strip the prefix, hide __metadata__ keys unless include_metadata, else
assign into the result dict. -/
def kvStep (pfx : String) (includeMetadata : Bool) (res : EnvDict)
    (p : String × String) : EnvDict :=
  if p.2 ≠ "" then
    if !includeMetadata && (isSubstr "__metadata__" (stripPfx pfx p.1) ||
        startsWithStr (stripPfx pfx p.1) "__metadata__") then res
    else dictInsert res (stripPfx pfx p.1) p.2
  else res

/-- Model of ConsulDirectClient.get_all_configs: the recurse query
returns the store entries under the prefix; the loop builds the result
dict. -/
def get_all_configs (store : KvStore) (pfx : String) (includeMetadata : Bool) : EnvDict :=
  let items := if pfx ≠ "" then store.filter (fun p => startsWithStr p.1 (pfx ++ "/"))
    else store
  items.foldl (kvStep pfx includeMetadata) []

/-- The get command of consul_kv.py main: value is None exits 1. -/
def kvGetExitsNonzero (store : KvStore) (pfx key : String) : Bool :=
  (get_config store pfx key).isNone

lemma foldl_kvStep_values {store : KvStore} (pfx : String) (inc : Bool) :
    ∀ (items : List (String × String)) (res : EnvDict),
      (∀ k v, dictLookup res k = some v → v ≠ "" ∧ ∃ fk, (fk, v) ∈ store) →
      (∀ p ∈ items, p ∈ store) →
      ∀ k v, dictLookup (items.foldl (kvStep pfx inc) res) k = some v →
        v ≠ "" ∧ ∃ fk, (fk, v) ∈ store := by
  intro items
  induction items with
  | nil => intro res hres _ k v h; exact hres k v h
  | cons p rest ih =>
    intro res hres hmem k v h
    rw [List.foldl_cons] at h
    refine ih (kvStep pfx inc res p) ?_ (fun q hq => hmem q (List.mem_cons_of_mem p hq)) k v h
    intro k' v' h'
    unfold kvStep at h'
    by_cases hv : p.2 ≠ ""
    · rw [if_pos hv] at h'
      by_cases hmeta : !inc && (isSubstr "__metadata__" (stripPfx pfx p.1) ||
          startsWithStr (stripPfx pfx p.1) "__metadata__")
      · rw [if_pos hmeta] at h'
        exact hres k' v' h'
      · rw [if_neg hmeta, dictLookup_dictInsert] at h'
        by_cases hk : k' = stripPfx pfx p.1
        · rw [if_pos hk] at h'
          have hv' : v' = p.2 := by cases h'; rfl
          subst hv'
          exact ⟨hv, p.1, by
            have : (p.1, p.2) = p := rfl
            rw [this]
            exact hmem p (List.mem_cons_self p rest)⟩
        · rw [if_neg hk] at h'
          exact hres k' v' h'
    · rw [if_neg hv] at h'
      exact hres k' v' h'

/-- The concrete store of the claim scenario: one empty-valued key and
one ordinary key under the app/prod prefix. -/
def c10Store : KvStore := [("app/prod/EMPTY", ""), ("app/prod/X", "1")]

/-- C10: a key stored with the empty string is indistinguishable from an
absent key: get_config answers None for it (so the get command exits
non-zero), and every binding that get_all_configs returns carries a
nonempty value taken from the store, so the empty-valued key never
appears in list, export or count output; concretely, with EMPTY stored
empty and X stored as 1 under app/prod, get_config EMPTY is None while
only X is returned. -/
theorem C10_empty_value_invisible :
    (∀ (store : KvStore) (pfx key : String),
      dictLookup store (buildKey pfx key) = some "" →
      get_config store pfx key = none ∧ kvGetExitsNonzero store pfx key = true) ∧
    (∀ (store : KvStore) (pfx : String) (inc : Bool) (k v : String),
      dictLookup (get_all_configs store pfx inc) k = some v →
      v ≠ "" ∧ ∃ fk, (fk, v) ∈ store) ∧
    get_config c10Store "app/prod" "EMPTY" = none ∧
    kvGetExitsNonzero c10Store "app/prod" "EMPTY" = true ∧
    get_all_configs c10Store "app/prod" false = [("X", "1")] ∧
    (get_all_configs c10Store "app/prod" false).length = 1 := by
  refine ⟨?_, ?_, by decide, by decide, by decide, by decide⟩
  · intro store pfx key h
    have hg : get_config store pfx key = none := by
      unfold get_config
      rw [h]
      simp
    exact ⟨hg, by unfold kvGetExitsNonzero; rw [hg]; rfl⟩
  · intro store pfx inc k v h
    unfold get_all_configs at h
    by_cases hp : pfx ≠ ""
    · rw [if_pos hp] at h
      exact foldl_kvStep_values pfx inc _ []
        (by intro k' v' h'; cases h')
        (fun p hp' => (List.mem_filter.mp hp').1) k v h
    · rw [if_neg hp] at h
      exact foldl_kvStep_values pfx inc store []
        (by intro k' v' h'; cases h')
        (fun p hp' => hp') k v h

/-- Witness for C10: both general parts applied at the concrete store,
discharging the lookup hypotheses by evaluation. -/
theorem C10_empty_value_invisible_witness :
    (get_config c10Store "app/prod" "EMPTY" = none ∧
      kvGetExitsNonzero c10Store "app/prod" "EMPTY" = true) ∧
    ("1" ≠ "" ∧ ∃ fk, (fk, "1") ∈ c10Store) :=
  ⟨C10_empty_value_invisible.1 c10Store "app/prod" "EMPTY" (by decide),
   C10_empty_value_invisible.2.1 c10Store "app/prod" false "X" "1" (by decide)⟩

/-! ### consul_kv.py and consul_web.py - the export safety gate

The outcome of the prefix construction and export safety check in each
client's main, just before the client object is built.  exitsBeforeKv
models the sys.exit(1) raised inside the safety check: it happens before
the Consul client is constructed, so no KV read or write is performed. -/

structure ExportGate where
  exitsBeforeKv : Bool
  effPfx : Option String
deriving DecidableEq

/-- Model of consul_kv.py main steps 4-4.5: auto prefix from app/env,
then the export safety check and the all-env prefix override.  app,
env-name and prefix are the resolved optional values, with Python
truthiness (None and "" falsy). -/
def kvExportGate (command : String) (app envName : Option String) (allEnv : Bool)
    (pfx0 : Option String) : ExportGate :=
  let p1 := if !pyTruthy pfx0 && pyTruthy app && pyTruthy envName then
      some (stripSlashesBoth ((app.getD "") ++ "/" ++ (envName.getD "")))
    else pfx0
  if command = "export" && pyTruthy app then
    if !pyTruthy envName && !allEnv then ⟨true, p1⟩
    else if allEnv then ⟨false, app⟩
    else ⟨false, p1⟩
  else ⟨false, p1⟩

structure WebExportGate where
  exitsBeforeKv : Bool
  effPfx : String
deriving DecidableEq

/-- Model of the full pre-client gate of consul_web.py main: the auto
prefix, the export safety check with its all-env prefix override, and
then the unconditional required-value checks (API key, app name,
environment name - each exits 1 when empty) that run for every command
after the safety gate and before the ConsulAPIClient is built.  The
resolved values default to "" rather than None. -/
def webExportGate (command apiKey app envName : String) (allEnv : Bool)
    (pfx0 : String) : WebExportGate :=
  let p1 := if pfx0 = "" && app ≠ "" && envName ≠ "" then
      stripSlashesBoth (app ++ "/" ++ envName)
    else pfx0
  if command = "export" && app ≠ "" && envName = "" && !allEnv then ⟨true, p1⟩
  else
    let p2 := if command = "export" && app ≠ "" && allEnv then app else p1
    if apiKey = "" then ⟨true, p2⟩
    else if app = "" then ⟨true, p2⟩
    else if envName = "" then ⟨true, p2⟩
    else ⟨false, p2⟩

/-- C4 (counterexample): the claim says supplying --all-env lets the
export proceed in both clients; the Direct KV client does proceed, but
the Config Proxy client with an app set, no environment and --all-env
still exits non-zero before the client is built - its unconditional
"Environment name required" check fires after the safety gate. -/
theorem C4_counterexample :
    (webExportGate "export" "k" "web" "" true "").exitsBeforeKv = true ∧
    (kvExportGate "export" (some "web") none true none).exitsBeforeKv = false := by
  decide

/-- C4 (amended): the Direct KV client's export with a truthy app exits
non-zero before any KV access exactly when no environment is set and
--all-env is absent; --env or --all-env lets it proceed, and --all-env
sets its effective prefix to the app name alone.  The Config Proxy
client's export with an app set and no environment exits non-zero
before any KV access with or without --all-env, because after the
safety gate it unconditionally requires an environment name (as well as
an API key and app name) before constructing the client; with an
environment (and API key) supplied it proceeds, and --all-env still
sets its effective prefix to the app name alone. -/
theorem C4_export_gate_amended :
    (∀ (app envName pfx0 : Option String), pyTruthy app = true →
      (kvExportGate "export" app envName false pfx0).exitsBeforeKv = !pyTruthy envName ∧
      (kvExportGate "export" app envName true pfx0).exitsBeforeKv = false ∧
      (kvExportGate "export" app envName true pfx0).effPfx = app) ∧
    (∀ (apiKey app envName pfx0 : String), apiKey ≠ "" → app ≠ "" →
      (webExportGate "export" apiKey app envName false pfx0).exitsBeforeKv
          = decide (envName = "") ∧
      (webExportGate "export" apiKey app envName true pfx0).exitsBeforeKv
          = decide (envName = "") ∧
      (envName ≠ "" →
        (webExportGate "export" apiKey app envName true pfx0).effPfx = app)) := by
  constructor
  · intro app envName pfx0 happ
    unfold kvExportGate
    cases he : pyTruthy envName with
    | true => simp [he, happ]
    | false => simp [he, happ]
  · intro apiKey app envName pfx0 hkey happ
    unfold webExportGate
    by_cases he : envName = ""
    · simp [he, happ, hkey]
    · simp [he, happ, hkey]

/-- Witness for C4: the gate outcomes at concrete inputs, hypotheses
discharged by evaluation. -/
theorem C4_export_gate_amended_witness :
    ((kvExportGate "export" (some "web") none false none).exitsBeforeKv = !pyTruthy none ∧
     (kvExportGate "export" (some "web") none true none).exitsBeforeKv = false ∧
     (kvExportGate "export" (some "web") none true none).effPfx = some "web") ∧
    ((webExportGate "export" "k" "web" "prod" false "").exitsBeforeKv
        = decide (("prod" : String) = "") ∧
     (webExportGate "export" "k" "web" "prod" true "").exitsBeforeKv
        = decide (("prod" : String) = "") ∧
     (webExportGate "export" "k" "web" "prod" true "").effPfx = "web") :=
  ⟨C4_export_gate_amended.1 (some "web") none none (by decide),
   (C4_export_gate_amended.2 "k" "web" "prod" "" (by decide) (by decide)).1,
   (C4_export_gate_amended.2 "k" "web" "prod" "" (by decide) (by decide)).2.1,
   (C4_export_gate_amended.2 "k" "web" "prod" "" (by decide) (by decide)).2.2 (by decide)⟩

/-! ### remote_hook_executor.py

Names bound at module level of remote_hook_executor.py: its imports,
the class and main.  The statement `import time` appears only inside
main(), where it binds a name local to that function, so the
module-level name `time` read by _download_script on the cache path is
undefined: evaluating time.time() raises NameError, which the
function's generic handler turns into a None result. -/

def hookModuleNames : List String :=
  ["os", "sys", "hashlib", "tempfile", "subprocess", "requests",
   "Dict", "List", "Optional", "Tuple", "urlparse", "Logger",
   "RemoteHookExecutor", "main"]

def nameDefinedAtModuleLevel (n : String) : Bool := hookModuleNames.contains n

/-- The inputs of one _download_script call: the cache file state, the
TTL configuration, and the network response. -/
structure DownloadState where
  cacheExists : Bool
  cacheAgeSeconds : Nat
  cacheTTL : Nat
  cacheContent : String
  fetched : Option String
  contentLengthHeader : Option Nat
  maxScriptSize : Nat
deriving DecidableEq

/-- The network path of _download_script: requests.get (marking network
access), the content-length header check, and the chunked size check
that fails exactly when the UTF-8 size of the body exceeds the limit. -/
def fetchViaNetwork (st : DownloadState) : Option String × Bool :=
  match st.fetched with
  | none => (none, true)
  | some body =>
    match st.contentLengthHeader with
    | some n =>
      if n > st.maxScriptSize then (none, true)
      else if body.utf8ByteSize > st.maxScriptSize then (none, true)
      else (some body, true)
    | none =>
      if body.utf8ByteSize > st.maxScriptSize then (none, true)
      else (some body, true)

/-- Model of RemoteHookExecutor._download_script.  With an existing
cache file the code reads time.time(); since `time` is not a
module-level name, this raises NameError before any comparison, the
generic except returns None, and the network is never reached. -/
def downloadScript (st : DownloadState) : Option String × Bool :=
  if st.cacheExists then
    if nameDefinedAtModuleLevel "time" then
      if st.cacheAgeSeconds < st.cacheTTL then (some st.cacheContent, false)
      else fetchViaNetwork st
    else (none, false)
  else fetchViaNetwork st

/-- Model of RemoteHookExecutor._validate_url on the parsed URL: https
only, and the host must be in the (nonempty) allow-list. -/
def validate_url (allowedDomains : List String) (scheme netloc : String) : Bool :=
  if scheme ≠ "https" then false
  else if !allowedDomains.isEmpty && !allowedDomains.contains netloc then false
  else true

/-- Python s.split(','): split a character list at every comma; the
empty input yields one empty field. -/
def splitOnComma : List Char → List (List Char)
  | [] => [[]]
  | c :: rest =>
    let r := splitOnComma rest
    if c = ',' then [] :: r
    else
      match r with
      | [] => [[c]]
      | h :: t => (c :: h) :: t

/-- Model of RemoteHookExecutor._get_allowed_domains: the comma-split,
stripped, truthy entries of ALLOWED_HOOK_DOMAINS plus the two default
GitHub hosts, deduplicated (list(set(...))). -/
def getAllowedDomains (envVal : String) : List String :=
  (((splitOnComma envVal.data).map (fun s => String.mk (stripPySpaces s))).filter
      (fun s => s ≠ "") ++
    ["raw.githubusercontent.com", "gist.githubusercontent.com"]).dedup

/-- Outcome of one execute_remote_hook call: the returned flag, whether
requests.get was reached, and whether the script was executed. -/
structure HookRunResult where
  success : Bool
  networkAccessed : Bool
  executed : Bool
deriving DecidableEq

/-- Model of RemoteHookExecutor.execute_remote_hook: URL validation,
download, falsy-content check, optional hash verification
(actual == expected on the SHA-256 hex digest), then execution. -/
def execute_remote_hook (allowedDomains : List String) (scheme netloc : String)
    (dl : DownloadState) (expectedHash : Option String)
    (sha256hex : String → String) (scriptExitZero : Bool) : HookRunResult :=
  if !validate_url allowedDomains scheme netloc then ⟨false, false, false⟩
  else
    match downloadScript dl with
    | (none, net) => ⟨false, net, false⟩
    | (some content, net) =>
      if content = "" then ⟨false, net, false⟩
      else if pyTruthy expectedHash && !(sha256hex content == expectedHash.getD "") then
        ⟨false, net, false⟩
      else ⟨scriptExitZero, net, true⟩

lemma getAllowedDomains_ne_nil (envVal : String) : getAllowedDomains envVal ≠ [] := by
  intro h
  have : "raw.githubusercontent.com" ∈ getAllowedDomains envVal := by
    unfold getAllowedDomains
    rw [List.mem_dedup]
    exact List.mem_append_right _ (List.mem_cons_self _ _)
  rw [h] at this
  cases this

/-- C3: a non-https URL is rejected with no network access; a host
outside the allow-list is rejected with no network access; and with a
supplied (truthy) expected SHA-256, a downloaded script whose actual
digest differs is never executed. -/
theorem C3_remote_hook_guards :
    (∀ (allowed : List String) (scheme netloc : String) (dl : DownloadState)
        (exp : Option String) (sha : String → String) (ok : Bool),
      scheme ≠ "https" →
      execute_remote_hook allowed scheme netloc dl exp sha ok = ⟨false, false, false⟩) ∧
    (∀ (domEnv scheme netloc : String) (dl : DownloadState)
        (exp : Option String) (sha : String → String) (ok : Bool),
      netloc ∉ getAllowedDomains domEnv →
      execute_remote_hook (getAllowedDomains domEnv) scheme netloc dl exp sha ok =
        ⟨false, false, false⟩) ∧
    (∀ (allowed : List String) (scheme netloc : String) (dl : DownloadState)
        (h : String) (sha : String → String) (ok : Bool) (c : String),
      h ≠ "" → (downloadScript dl).1 = some c → sha c ≠ h →
      (execute_remote_hook allowed scheme netloc dl (some h) sha ok).executed = false) := by
  refine ⟨?_, ?_, ?_⟩
  · intro allowed scheme netloc dl exp sha ok h
    unfold execute_remote_hook validate_url
    simp [h]
  · intro domEnv scheme netloc dl exp sha ok h
    have hv : validate_url (getAllowedDomains domEnv) scheme netloc = false := by
      unfold validate_url
      by_cases hs : scheme ≠ "https"
      · rw [if_pos (by simpa using hs)]
      · rw [if_neg (by simpa using hs), if_pos]
        simp [List.isEmpty_iff, getAllowedDomains_ne_nil domEnv, h]
    unfold execute_remote_hook
    rw [hv]
    rfl
  · intro allowed scheme netloc dl h sha ok c hne hdl hsha
    unfold execute_remote_hook
    by_cases hv : validate_url allowed scheme netloc
    · rw [hv]
      simp only [Bool.not_true]
      cases hd : downloadScript dl with
      | mk fst net =>
        rw [hd] at hdl
        simp only at hdl
        subst hdl
        simp only
        by_cases hc : c = ""
        · rw [if_pos hc]; rfl
        · have h1 : pyTruthy (some h) = true := by simp [pyTruthy, hne]
          have h2 : (sha c == (some h).getD "") = false :=
            beq_eq_false_iff_ne.mpr hsha
          have hcond : (pyTruthy (some h) && !(sha c == (some h).getD "")) = true := by
            rw [h1, h2]
            rfl
          rw [if_neg hc, if_pos hcond]
          rfl
    · rw [Bool.eq_false_iff.mpr hv]
      rfl

/-- Witness for C3: the three guards at concrete inputs (http scheme,
unknown host, wrong digest), hypotheses discharged by evaluation. -/
theorem C3_remote_hook_guards_witness :
    execute_remote_hook ["raw.githubusercontent.com"] "http" "raw.githubusercontent.com"
        ⟨false, 0, 3600, "", some "echo hi", none, 1048576⟩ none (fun _ => "aa") true =
      ⟨false, false, false⟩ ∧
    execute_remote_hook (getAllowedDomains "") "https" "evil.example.com"
        ⟨false, 0, 3600, "", some "echo hi", none, 1048576⟩ none (fun _ => "aa") true =
      ⟨false, false, false⟩ ∧
    (execute_remote_hook ["raw.githubusercontent.com"] "https" "raw.githubusercontent.com"
        ⟨false, 0, 3600, "", some "echo hi", none, 1048576⟩ (some "bb") (fun _ => "aa")
        true).executed = false :=
  ⟨C3_remote_hook_guards.1 ["raw.githubusercontent.com"] "http" "raw.githubusercontent.com"
      ⟨false, 0, 3600, "", some "echo hi", none, 1048576⟩ none (fun _ => "aa") true
      (by decide),
   C3_remote_hook_guards.2.1 "" "https" "evil.example.com"
      ⟨false, 0, 3600, "", some "echo hi", none, 1048576⟩ none (fun _ => "aa") true
      (by decide),
   C3_remote_hook_guards.2.2 ["raw.githubusercontent.com"] "https" "raw.githubusercontent.com"
      ⟨false, 0, 3600, "", some "echo hi", none, 1048576⟩ "bb" (fun _ => "aa") true "echo hi"
      (by decide) (by decide) (by decide)⟩

/-- C7: the claim that a cache file younger than the TTL is served
without re-fetching fails in the code as written: `time` is only
imported inside main(), so the module-level lookup in _download_script
raises NameError whenever a cache file exists, the generic handler
returns None, and the download fails outright (fresh or stale alike);
the network path is reached only when no cache file exists. -/
theorem C7_cache_hit_raises_NameError :
    nameDefinedAtModuleLevel "time" = false ∧
    (∀ st : DownloadState, downloadScript { st with cacheExists := true } = (none, false)) ∧
    downloadScript ⟨true, 10, 3600, "echo cached", some "echo fresh", none, 1048576⟩ =
      (none, false) ∧
    downloadScript ⟨false, 0, 3600, "", some "echo fresh", none, 1048576⟩ =
      (some "echo fresh", true) := by
  refine ⟨rfl, ?_, by decide, by decide⟩
  intro st
  unfold downloadScript
  rfl

/-! ### File writes: consul_kv.py write_output versus
fetch_secrets.py SecretsFetcher.write_env_runtime

Each write path is modelled as the list of file-system operations it
performs, with failure injection points; an interpreter folds the
operations over an observable state of the destination and temporary
file (content and permission mode). -/

/-- A file-system operation performed by the write paths. -/
inductive FsOp where
  | createTemp (content : String) (mode : Nat)
  | chmodTemp (mode : Nat)
  | renameTempToDest
  | unlinkTemp
  | openWriteDest (content : String) (mode : Nat)
  | chmodDest (mode : Nat)
deriving DecidableEq

/-- Observable file-system state: destination and temp file, each as
content and permission mode. -/
structure FsState where
  dest : Option (String × Nat)
  temp : Option (String × Nat)
deriving DecidableEq

/-- Effect of one operation.  A direct open-for-write keeps the mode of
an existing destination and creates a new one with the umask-derived
mode passed by the trace. -/
def applyOp (st : FsState) (op : FsOp) : FsState :=
  match op with
  | .createTemp c m => ⟨st.dest, some (c, m)⟩
  | .chmodTemp m =>
    match st.temp with
    | some (c, _) => ⟨st.dest, some (c, m)⟩
    | none => st
  | .renameTempToDest => ⟨st.temp, none⟩
  | .unlinkTemp => ⟨st.dest, none⟩
  | .openWriteDest c m =>
    match st.dest with
    | some (_, m0) => ⟨some (c, m0), st.temp⟩
    | none => ⟨some (c, m), st.temp⟩
  | .chmodDest m =>
    match st.dest with
    | some (c, _) => ⟨some (c, m), st.temp⟩
    | none => st

def runOps (st : FsState) (ops : List FsOp) : FsState := ops.foldl applyOp st

/-- Failure injection points of write_output, between its steps. -/
inductive WriteFailure where
  | noFail
  | afterTempWrite
  | afterChmod
deriving DecidableEq

/-- The written content: the code appends a newline when missing. -/
def ensureTrailingNewline (content : String) : String :=
  if content.data.getLast? = some '\n' then content else content ++ "\n"

/-- Model of write_output's file branch (output_file neither None nor
'-') as its operation trace and success flag: an existing destination
without overwrite exits before touching anything; otherwise the content
is written to a NamedTemporaryFile in the destination directory
(created with mode 600), the temp file is chmod-ed to 600, and only
then renamed over the destination; an exception at either injected
point unlinks the temp file and exits(1). -/
def write_output (content : String) (destExists : Bool) (overwrite : Bool)
    (fail : WriteFailure) : List FsOp × Bool :=
  if destExists && !overwrite then ([], false)
  else
    let c := ensureTrailingNewline content
    match fail with
    | .afterTempWrite => ([.createTemp c 600, .unlinkTemp], false)
    | .afterChmod => ([.createTemp c 600, .chmodTemp 600, .unlinkTemp], false)
    | .noFail => ([.createTemp c 600, .chmodTemp 600, .renameTempToDest], true)

/-- The content of the .env.runtime file: the four header lines, a
blank line, then KEY=VALUE rows in sorted key order. -/
def envRuntimeContent (timestamp environment : String) (config : EnvDict) : String :=
  String.intercalate "\n"
    (["# Runtime Environment Variables",
      "# Generated at: " ++ timestamp,
      "# Environment: " ++ environment,
      "# This file contains secrets and should not be committed to Git",
      ""] ++
      (List.insertionSort (fun a b => pyStrLe a b = true) (config.map Prod.fst)).map
        (fun k => k ++ "=" ++ (dictLookup config k).getD ""))

/-- Model of SecretsFetcher.write_env_runtime as its operation trace:
open(output_path, 'w') writes the destination file itself (a new file
is created with the process umask mode), and only afterwards is the
mode restricted to 600; fail = true is an interruption between the
write and the chmod. -/
def write_env_runtime (timestamp environment : String) (config : EnvDict)
    (umaskMode : Nat) (fail : Bool) : List FsOp × Bool :=
  let content := envRuntimeContent timestamp environment config
  if fail then ([.openWriteDest content umaskMode], false)
  else ([.openWriteDest content umaskMode, .chmodDest 600], true)

/-- An atomic-replace shaped trace, modelled from the spec's words: the
destination is touched only by the final rename of the temp file, never
by a direct open-for-write. -/
def touchesDestOnlyByRename (ops : List FsOp) : Bool :=
  ops.all (fun op =>
    match op with
    | .openWriteDest _ _ => false
    | .chmodDest _ => false
    | _ => true)

/-- C2 (counterexample): the .env.runtime write is not an atomic
replace.  On a concrete one-secret config, interrupting it after the
write and before the chmod leaves a freshly created destination file
(at the umask mode 0o644 = 420), although the claim requires the
destination to be untouched; and its trace opens the destination
directly, using no temporary file and no rename at all. -/
theorem C2_counterexample :
    (write_env_runtime "2024-01-01T00:00:00" "prod" [("API_KEY", "s3cr3t")] 420 true).2
      = false ∧
    (runOps ⟨none, none⟩
        (write_env_runtime "2024-01-01T00:00:00" "prod" [("API_KEY", "s3cr3t")] 420 true).1).dest
      ≠ none ∧
    touchesDestOnlyByRename
        (write_env_runtime "2024-01-01T00:00:00" "prod" [("API_KEY", "s3cr3t")] 420 false).1
      = false := by
  decide

/-- C2 (amended): the Direct KV client's export-to-file write
(write_output) is an atomic replace - the content goes to a temporary
file, its mode is restricted to 600 before the rename, a failure before
the rename leaves the destination untouched and removes the temporary
file, and at no intermediate point is the destination anything but its
prior state or the final mode-600 file.  The Secrets Fetcher's
write_env_runtime is not: it opens the destination directly and applies
chmod 600 only after writing, so an interruption between write and
chmod leaves the freshly written secret file behind at the umask mode. -/
theorem C2_atomic_write_amended :
    (∀ (content : String) (st0 : FsState) (overwrite : Bool) (fail : WriteFailure),
      st0.temp = none →
      (fail ≠ WriteFailure.noFail →
        (runOps st0 (write_output content st0.dest.isSome overwrite fail).1).dest
            = st0.dest ∧
        (runOps st0 (write_output content st0.dest.isSome overwrite fail).1).temp = none ∧
        (write_output content st0.dest.isSome overwrite fail).2 = false) ∧
      ((write_output content st0.dest.isSome overwrite WriteFailure.noFail).2 = true →
        (runOps st0
            (write_output content st0.dest.isSome overwrite WriteFailure.noFail).1).dest
          = some (ensureTrailingNewline content, 600)) ∧
      (∀ i : Nat,
        (runOps st0
            ((write_output content st0.dest.isSome overwrite WriteFailure.noFail).1.take
              i)).dest = st0.dest ∨
        (runOps st0
            ((write_output content st0.dest.isSome overwrite WriteFailure.noFail).1.take
              i)).dest = some (ensureTrailingNewline content, 600))) ∧
    (∀ (ts env : String) (config : EnvDict) (umask : Nat),
      (write_env_runtime ts env config umask true).1 =
        [FsOp.openWriteDest (envRuntimeContent ts env config) umask] ∧
      (write_env_runtime ts env config umask true).2 = false ∧
      (runOps ⟨none, none⟩ (write_env_runtime ts env config umask true).1).dest =
        some (envRuntimeContent ts env config, umask)) := by
  constructor
  · intro content st0 overwrite fail htemp
    by_cases hg : (st0.dest.isSome && !overwrite) = true
    · refine ⟨?_, ?_, ?_⟩
      · intro _
        unfold write_output
        rw [if_pos hg]
        exact ⟨rfl, htemp, rfl⟩
      · intro hsucc
        unfold write_output at hsucc
        rw [if_pos hg] at hsucc
        exact absurd hsucc (by simp)
      · intro i
        left
        unfold write_output
        rw [if_pos hg]
        show (runOps st0 (List.take i [])).dest = st0.dest
        rw [List.take_nil]
        rfl
    · refine ⟨?_, ?_, ?_⟩
      · intro hf
        unfold write_output
        rw [if_neg hg]
        cases fail with
        | noFail => exact absurd rfl hf
        | afterTempWrite => exact ⟨rfl, rfl, rfl⟩
        | afterChmod => exact ⟨rfl, rfl, rfl⟩
      · intro _
        unfold write_output
        rw [if_neg hg]
        rfl
      · intro i
        unfold write_output
        rw [if_neg hg]
        match i with
        | 0 => left; rfl
        | 1 => left; rfl
        | 2 => left; rfl
        | n + 3 =>
          right
          rw [List.take_of_length_le (by simp)]
          rfl
  · intro ts env config umask
    exact ⟨rfl, rfl, rfl⟩

/-- Witness for C2: the failure-before-rename guarantee of write_output
at a concrete input, hypotheses discharged by evaluation. -/
theorem C2_atomic_write_amended_witness :
    (runOps ⟨none, none⟩ (write_output "A=1" false false WriteFailure.afterTempWrite).1).dest
        = none ∧
    (runOps ⟨none, none⟩ (write_output "A=1" false false WriteFailure.afterTempWrite).1).temp
        = none ∧
    (write_output "A=1" false false WriteFailure.afterTempWrite).2 = false :=
  (C2_atomic_write_amended.1 "A=1" ⟨none, none⟩ false WriteFailure.afterTempWrite rfl).1
    (by decide)
